import Mathlib

/-!
Verification development for the install/uninstall orchestration engine
(src/lib/install.ts and src/lib/cleanup.ts).

The TypeScript source is shallowly embedded: asynchronous code is modelled
by explicit event lists / call-indexed environments, JS `string` by `String`,
JS numbers used as exit codes by `Option Int` (null = none), and thrown
exceptions by `Except String`.
-/

set_option maxRecDepth 2000

namespace MusicProd

/- ===================================================================
   Process execution (src/lib/install.ts, executeProcess, lines 12-81)
   =================================================================== -/

/-- `ProcessResponse` (src/lib/models/process.ts lines 17-21):
`success : boolean`, `exitCode : number | null`, `error?: string`. -/
structure ProcessResponse where
  success : Bool
  exitCode : Option Int
  error : Option String
  deriving DecidableEq

/-- The externally observable events that can settle the promise created by
`executeProcess`: the timeout timer firing, the child process `close` event
(`code : number | null`), or the spawn-level `error` event (carrying the
`NodeJS.ErrnoException` fields `code?` and `message`). They are listed in
the temporal order in which they occur. -/
inductive PEvent where
  | timeout : PEvent
  | close (code : Option Int) : PEvent
  | procError (errCode : Option String) (message : String) : PEvent
  deriving DecidableEq

/-- Renders an exit code the way the JS template literal
`` `Process exited with code ${code}` `` does (`null` prints as "null"). -/
def renderExitCode : Option Int → String
  | none => "null"
  | some k => toString k

/-- The response built in the `close` handler (install.ts lines 49-59):
`success = (code === 0)`, `error` only on non-zero code. -/
def closeResponse (code : Option Int) : ProcessResponse :=
  if code = some 0 then
    ⟨true, code, none⟩
  else
    ⟨false, code, some ("Process exited with code " ++ renderExitCode code)⟩

/-- The response built in the `error` handler (install.ts lines 61-79):
the message is re-classified for EACCES / ENOENT / EFTYPE, otherwise the
original `error.message` is passed through unchanged. -/
def spawnErrorResponse (executablePath : String) (errCode : Option String)
    (message : String) : ProcessResponse :=
  let errorMessage :=
    if errCode = some "EACCES" then
      "Access denied. This may require administrator privileges. Try running the command as administrator. (Original error: " ++ message ++ ")"
    else if errCode = some "ENOENT" then
      "Executable not found: " ++ executablePath ++ ". The uninstaller may have been moved or deleted."
    else if errCode = some "EFTYPE" then
      "Cannot execute file directly: " ++ executablePath ++ ". This may be an MSI file that needs to be run with msiexec.exe, or the file may be corrupted."
    else
      message
  ⟨false, none, some errorMessage⟩

/-- Outcome of running `executeProcess`: the value the promise resolved with
(`none` while still pending) and whether `process.kill()` was invoked. -/
structure ProcessRun where
  response : Option ProcessResponse
  killed : Bool
  deriving DecidableEq

/-- Shallow embedding of `executeProcess` (install.ts lines 12-81) applied to
a temporal sequence of events. The promise resolves exactly once, with the
first settling event; the timeout timer exists only when `timeout > 0`
(line 38), and when it fires it kills the process and resolves with the
timeout response (lines 38-47). A later `close` event finds `timedOut = true`
and returns without re-resolving (line 52); a later `error` event calls
`resolve` on an already-settled promise, which is a no-op. -/
def executeProcessRun (executablePath : String) (timeoutMs : Nat) :
    List PEvent → ProcessRun
  | [] => ⟨none, false⟩
  | PEvent.timeout :: rest =>
      if 0 < timeoutMs then
        ⟨some ⟨false, none, some "Process execution timed out"⟩, true⟩
      else
        executeProcessRun executablePath timeoutMs rest
  | PEvent.close code :: _ => ⟨some (closeResponse code), false⟩
  | PEvent.procError c m :: _ => ⟨some (spawnErrorResponse executablePath c m), false⟩

/-- An event can settle the promise (given the configured timeout). -/
def settlingEvent (timeoutMs : Nat) : PEvent → Bool
  | PEvent.timeout => decide (0 < timeoutMs)
  | PEvent.close _ => true
  | PEvent.procError _ _ => true

/-- Contiguous-sublist test on character lists. -/
def isInfixList (n : List Char) : List Char → Bool
  | [] => n.isEmpty
  | c :: rest => n.isPrefixOf (c :: rest) || isInfixList n rest

/-- Substring test on strings (via their character lists); models the JS
`String.prototype.includes` (case-sensitive). -/
def substrB (needle s : String) : Bool :=
  isInfixList needle.data s.data

/-- The ASCII whitespace characters matched by the JS regex class `\s`
(space, tab, newline, carriage return, vertical tab, form feed; the
non-ASCII members are irrelevant for command strings). -/
def isWsChar (c : Char) : Bool :=
  c = ' ' || c = Char.ofNat 9 || c = Char.ofNat 10 || c = Char.ofNat 13 ||
    c = Char.ofNat 11 || c = Char.ofNat 12

/-- `String.prototype.toLowerCase` for ASCII command strings, computed on
the character list. -/
def lowerStr (s : String) : String :=
  String.mk (s.data.map Char.toLower)

/-- `String.prototype.trim` for ASCII command strings, computed on the
character list. -/
def trimStr (s : String) : String :=
  String.mk (((s.data.dropWhile isWsChar).reverse.dropWhile isWsChar).reverse)

/-- `String.prototype.endsWith`, computed on the character lists. -/
def endsWithStr (suffix s : String) : Bool :=
  List.isPrefixOf suffix.data.reverse s.data.reverse

/-- `String.prototype.startsWith`, computed on the character lists. -/
def startsWithStr (p s : String) : Bool :=
  List.isPrefixOf p.data s.data

/- ===================================================================
   Post-uninstall verification loop
   (src/lib/cleanup.ts, uninstallByName, lines 476-518)
   =================================================================== -/

/-- The `{ success, error? }` shape returned by `uninstallByName` and carried
by `processResult` in its verification loop. -/
structure UOutcome where
  success : Bool
  error : Option String
  deriving DecidableEq

/-- The fallback after the loop (cleanup.ts lines 508-518): if the process
reported success, trust it (`return { success: true }`); otherwise return the
process result itself. -/
def uvFallback (proc : UOutcome) : UOutcome :=
  if proc.success then ⟨true, none⟩ else proc

/-- One execution of the retry loop of `uninstallByName` (cleanup.ts lines
482-506). `present i` is what the i-th `findUninstallString` re-query
observes (`true` = the program is still listed in the uninstall registry
keys). Arguments mirror the loop state: remaining iterations, the `attempt`
counter, the current `delay`, and the accumulated waits (most recent first).
Per iteration: wait `delay`, re-query; absence returns success immediately
(lines 492-495); a failed process outcome with `attempt >= 1` breaks
(lines 497-500); otherwise `delay = min(initialDelay * 2^(attempt+1), 3000)`
(lines 502-505) and the loop continues. -/
def uvGo (present : Nat → Bool) (proc : UOutcome) :
    Nat → Nat → Nat → List Nat → List Nat × UOutcome
  | 0, _, _, acc => (acc.reverse, uvFallback proc)
  | rem + 1, attempt, delay, acc =>
      if present attempt = false then
        ((delay :: acc).reverse, ⟨true, none⟩)
      else if proc.success = false ∧ 1 ≤ attempt then
        ((delay :: acc).reverse, uvFallback proc)
      else
        uvGo present proc rem (attempt + 1) (min (500 * 2 ^ (attempt + 1)) 3000)
          (delay :: acc)

/-- The verification phase of `uninstallByName` (cleanup.ts lines 482-518):
`maxRetries = 5`, `initialDelay = 500`. Returns the list of waits performed
(one before each registry re-query) and the final `{success, error}`. -/
def uninstallVerify (present : Nat → Bool) (proc : UOutcome) :
    List Nat × UOutcome :=
  uvGo present proc 5 0 500 []

/-- Modelled from the spec: claim C1 describes the post-uninstall re-query as
the Verification Oracle, i.e. the logical OR of the installed-products
listing check (`reg`) and the plugin-directory scan (`plugin`), per spec
section 4.4. The source (cleanup.ts line 490) instead re-queries only
`findUninstallString`, i.e. the registry listing. -/
def uninstallVerifyOracle (reg : Nat → Bool) (plugin : Bool) (proc : UOutcome) :
    List Nat × UOutcome :=
  uninstallVerify (fun i => reg i || plugin) proc

/-- The early-stop condition of the loop at attempt `i`, as stated by the
spec: the product is confirmed absent, or the process outcome was a failure
and at least one verification attempt has already been made. -/
def uvStop (present : Nat → Bool) (procSuccess : Bool) (i : Nat) : Bool :=
  !present i || (!procSuccess && decide (1 ≤ i))

/-- The delay schedule stated by the spec for the confirmation loop. -/
def uvSpecDelays : List Nat := [500, 1000, 2000, 3000, 3000]

/- ===================================================================
   installSingle (src/lib/install.ts, lines 386-537)
   =================================================================== -/

/-- `InstallItem` (src/lib/models/install.ts): the JS `path: string | string[]`
is normalized by `installSingle` line 392 into an array, modelled here as a
list. An absent `installedAppNames` and an empty one behave identically
(both fail the `length > 0` guard), so both are the empty list. -/
structure InstallItem where
  name : String
  paths : List String
  installedAppNames : List String
  requiresManualInstallation : Bool
  deriving DecidableEq

/-- `InstallResult` (src/lib/models/install.ts); `error : Error | undefined`
is modelled by the error's message. -/
structure InstallResult where
  name : String
  paths : List String
  installSuccess : Bool
  error : Option String
  deriving DecidableEq

/-- The status values emitted through `onStatusChange`
(src/lib/models/install.ts, `InstallationTaskOptions`). -/
inductive InstStatus where
  | pending | installing | completed | failed | skipped
  deriving DecidableEq

/-- Environment for one `installSingle` run: `verify k` is the boolean
returned by the k-th call to `verifyInstallation` within the task, and
`run i` is the `ProcessResponse` of the i-th `executeInstaller` call. -/
structure InstallEnv where
  verify : Nat → Bool
  run : Nat → ProcessResponse

/-- Observable outcome of one `installSingle` run: the returned result, the
statuses emitted via `onStatusChange` (in order), the number of installer
processes launched (`executeInstaller` calls), and the number of
`verifyInstallation` calls. -/
structure InstallRunOut where
  result : InstallResult
  statuses : List InstStatus
  launches : Nat
  verifyCalls : Nat
  deriving DecidableEq

/-- The JS expression `result.error || fallback` (an empty message string is
falsy, so it also selects the fallback). -/
def jsErrOr (e : Option String) (fallback : String) : String :=
  match e with
  | none => fallback
  | some s => if s = "" then fallback else s

/-- Loop state after the automated-install loop of `installSingle`
(install.ts lines 455-483). `early = true` encodes the early
`return`-with-success taken when a failed installer is reconciled by
verification inside the loop (lines 468-478). -/
structure InstLoopOut where
  lastError : Option String
  vCalls : Nat
  launches : Nat
  early : Bool
  deriving DecidableEq

/-- The automated-install loop (install.ts lines 455-483): run each installer
in order; on failure, when `installedAppNames` is non-empty, call
`verifyInstallation` — a positive answer returns success immediately
(skipping the remaining installers); otherwise record
`new Error(result.error || "Installation failed for " ++ path)` as
`lastError` and continue. -/
def instLoop (env : InstallEnv) (checkNames : Bool) :
    List String → Nat → Nat → Option String → InstLoopOut
  | [], idx, vc, lastError => ⟨lastError, vc, idx, false⟩
  | p :: rest, idx, vc, lastError =>
      let res := env.run idx
      if res.success then
        instLoop env checkNames rest (idx + 1) vc lastError
      else if checkNames then
        if env.verify vc then
          ⟨lastError, vc + 1, idx + 1, true⟩
        else
          instLoop env checkNames rest (idx + 1) (vc + 1)
            (some (jsErrOr res.error ("Installation failed for " ++ p)))
      else
        instLoop env checkNames rest (idx + 1) vc
          (some (jsErrOr res.error ("Installation failed for " ++ p)))

/-- The manual-installation loop (install.ts lines 410-429): launch each
installer visibly; a launch with `exitCode === null` (spawn failure or
timeout) is immediately terminal with a `Failed` result; any other exit code
— zero or not — continues. Returns `some (error, launches)` on the terminal
failure, otherwise `none` together with the total launch count is implied by
the path count. -/
def manualLoop (env : InstallEnv) :
    List String → Nat → Option (String × Nat)
  | [], _ => none
  | p :: rest, idx =>
      let res := env.run idx
      if res.exitCode = none then
        some (jsErrOr res.error ("Installation wizard failed to launch for " ++ p), idx + 1)
      else
        manualLoop env rest (idx + 1)

/-- Shallow embedding of `installSingle` (install.ts lines 386-537).
Pre-flight (lines 394-405): with non-empty `installedAppNames`, a positive
`verifyInstallation` returns a success result with status `skipped` and no
launch. Manual branch (lines 407-452): status `installing`, then the manual
loop; afterwards, when names exist, one more verification call (lines
431-443) whose answer does not change the optimistic `completed` outcome.
Automated branch (lines 454-514): the automated loop, then — when it left a
`lastError` — a final verification (lines 485-497) that can still turn the
outcome into success; otherwise `failed` with `lastError`; with no
`lastError`, `completed`. The surrounding `try/catch` (line 515) is
unreachable in this model because the environment is total. -/
def installSingleModel (item : InstallItem) (env : InstallEnv) : InstallRunOut :=
  let hasNames : Bool := item.installedAppNames ≠ []
  if hasNames ∧ env.verify 0 then
    ⟨⟨item.name, item.paths, true, none⟩, [InstStatus.skipped], 0, 1⟩
  else
    let vc0 : Nat := if hasNames then 1 else 0
    if item.requiresManualInstallation then
      match manualLoop env item.paths 0 with
      | some (e, launches) =>
          ⟨⟨item.name, item.paths, false, some e⟩,
            [InstStatus.installing, InstStatus.failed], launches, vc0⟩
      | none =>
          if hasNames then
            ⟨⟨item.name, item.paths, true, none⟩,
              [InstStatus.installing, InstStatus.completed],
              item.paths.length, vc0 + 1⟩
          else
            ⟨⟨item.name, item.paths, true, none⟩,
              [InstStatus.installing, InstStatus.completed],
              item.paths.length, vc0⟩
    else
      let lo := instLoop env hasNames item.paths 0 vc0 none
      if lo.early then
        ⟨⟨item.name, item.paths, true, none⟩, [InstStatus.completed],
          lo.launches, lo.vCalls⟩
      else
        match lo.lastError with
        | some e =>
            if hasNames then
              if env.verify lo.vCalls then
                ⟨⟨item.name, item.paths, true, none⟩, [InstStatus.completed],
                  lo.launches, lo.vCalls + 1⟩
              else
                ⟨⟨item.name, item.paths, false, some e⟩, [InstStatus.failed],
                  lo.launches, lo.vCalls + 1⟩
            else
              ⟨⟨item.name, item.paths, false, some e⟩, [InstStatus.failed],
                lo.launches, lo.vCalls⟩
        | none =>
            ⟨⟨item.name, item.paths, true, none⟩, [InstStatus.completed],
              lo.launches, lo.vCalls⟩

/- ===================================================================
   Batch orchestration
   (src/lib/cleanup.ts lines 543-687, src/lib/install.ts lines 542-606)
   =================================================================== -/

/-- `UninstallResult` (cleanup.ts lines 99-103). -/
structure UninstallResult where
  name : String
  success : Bool
  error : Option String
  deriving DecidableEq

/-- Shallow embedding of `uninstallSingle` (cleanup.ts lines 543-588) over
the outcome of its inner `uninstallByName` call: `Except.ok` is a normal
return, `Except.error e` is a thrown exception whose message is `e` (for a
string throw, the string itself — cleanup.ts lines 574-578). The `catch`
converts any throw into a failed result for this task. Status emission is
omitted here; the result value is what the batch layer consumes. -/
def uninstallSingleModel (programName : String)
    (inner : Except String UOutcome) : UninstallResult :=
  match inner with
  | Except.ok r => ⟨programName, r.success, r.error⟩
  | Except.error e => ⟨programName, false, some e⟩

/-- JS string truthiness fallback `nm || alt` ("" is falsy). -/
def jsStrOr (nm alt : String) : String :=
  if nm = "" then alt else nm

/-- The fulfilled/rejected handler of `uninstallConcurrently`'s
`settledResults.map` (cleanup.ts lines 654-672). A rejection reason is
modelled as a string (for an `Error` reason, its message). -/
def settleUninstall (programNames : List String) (i : Nat)
    (o : Except String UninstallResult) : UninstallResult :=
  match o with
  | Except.ok r => r
  | Except.error reason =>
      ⟨jsStrOr (programNames.getD i "") "unknown", false, some reason⟩

/-- Placeholder item used to read `items[index]` (the index is always valid
in the source, so the placeholder is never observed there). -/
def defaultItem : InstallItem := ⟨"", [], [], false⟩

/-- The fulfilled/rejected handler of `installConcurrently`'s
`settledResults.map` (install.ts lines 578-591); the rejected branch builds
`new Error(result.reason || "Installation failed")` and falls back to
"unknown" / `''` for the item fields. -/
def settleInstall (items : List InstallItem) (i : Nat)
    (o : Except String InstallResult) : InstallResult :=
  match o with
  | Except.ok r => r
  | Except.error reason =>
      ⟨jsStrOr (items.getD i defaultItem).name "unknown",
        (items.getD i defaultItem).paths,
        false, some (jsStrOr reason "Installation failed")⟩

/-- Event-loop model of `Promise.allSettled`: each task `i` completes at its
own position in the completion `order` and writes its settled outcome into
slot `i` of an `n`-slot array; the array is read out in index order at the
end. A completion order that is a permutation of `0..n-1` fills every slot. -/
def fillSlots {α : Type} (n : Nat) (vals : Nat → α) (order : List Nat) :
    List (Option α) :=
  order.foldl (fun acc i => acc.set i (some (vals i))) (List.replicate n none)

/-- Default result used to read out a slot (provably never used when the
completion order is a permutation of the task indices). -/
def defaultUR : UninstallResult := ⟨"", false, none⟩

/-- Default result used to read out a slot on the install side. -/
def defaultIR : InstallResult := ⟨"", [], false, none⟩

/-- Shallow embedding of `installConcurrently` (install.ts lines 564-592):
every task is started immediately (`items.map(item => installSingle(...))`,
line 575 — there is no `setTimeout` and hence no start delay), the promises
are joined with `Promise.allSettled`, and the settled array — indexed by
input position regardless of completion order — is mapped through the
fulfilled/rejected handler. `outcomes i` is the settled state of task i's
promise (`Except.error` = rejected). -/
def installConcurrentlyModel (items : List InstallItem)
    (outcomes : Nat → Except String InstallResult) (order : List Nat) :
    List InstallResult :=
  (fillSlots items.length (fun i => settleInstall items i (outcomes i)) order).map
    (fun s => s.getD defaultIR)

/-- The start delay `installConcurrently` schedules before task `i` begins:
the source starts every task immediately, so it is 0 for every index. -/
def installStartDelay (_i : Nat) : Nat := 0

/-- The stagger delay computed by `uninstallConcurrently` (cleanup.ts line
632): `Math.floor(Math.random() * 200) + index * 50`, with `rand i` the
sampled `Math.floor(Math.random() * 200)` for task `i` (an integer in
`[0, 200)`). -/
def uninstallStartDelay (rand : Nat → Nat) (i : Nat) : Nat :=
  rand i + i * 50

/-- Shallow embedding of `uninstallConcurrently` (cleanup.ts lines 616-673):
each task is scheduled after its stagger delay, runs independently, and the
settled array is mapped through the fulfilled/rejected handler in input
order. Returns the per-task start delays together with the result list. -/
def uninstallConcurrentlyModel (programNames : List String) (rand : Nat → Nat)
    (outcomes : Nat → Except String UninstallResult) (order : List Nat) :
    List Nat × List UninstallResult :=
  ((List.range programNames.length).map (uninstallStartDelay rand),
    (fillSlots programNames.length
      (fun i => settleUninstall programNames i (outcomes i)) order).map
      (fun s => s.getD defaultUR))

/-- Shallow embedding of `uninstallSequentially` (cleanup.ts lines 593-610):
tasks run one at a time in input order; each result is the task's own
`uninstallSingle` outcome. `inners i` is the i-th task's `uninstallByName`
outcome (or thrown exception). -/
def uninstallSequentiallyModel (programNames : List String)
    (inners : Nat → Except String UOutcome) : List UninstallResult :=
  (List.range programNames.length).map
    (fun i => uninstallSingleModel (programNames.getD i "") (inners i))

/- ===================================================================
   Uninstall command resolution
   (src/lib/cleanup.ts, uninstallByName, lines 345-467)
   =================================================================== -/

/-- Literal open-brace character. -/
def lbrace : Char := Char.ofNat 123

/-- Literal single-quote character. -/
def squote : Char := Char.ofNat 39

/-- The split of `existingArgsStr` by the regex
`\s+` followed by a lookahead requiring an even number of double quotes in
the remaining suffix (cleanup.ts line 456), i.e. a split on whitespace
outside quoted spans. Whitespace characters never change the suffix quote
count, so the per-character decision equals the regex's per-run decision;
the extra empty fragments a per-character split produces are removed by the
same `.filter(arg => arg.trim())` the source applies. -/
def splitWsGo : List Char → List Char → List String
  | [], cur => [String.mk cur.reverse]
  | c :: rest, cur =>
      if isWsChar c ∧ rest.count '"' % 2 = 0 then
        String.mk cur.reverse :: splitWsGo rest []
      else
        splitWsGo rest (c :: cur)

/-- `existingArgsStr.split(regex).filter(arg => arg.trim())`
(cleanup.ts line 456). -/
def splitArgsOnWs (s : String) : List String :=
  (splitWsGo s.data []).filter (fun a => trimStr a ≠ "")

/-- `existingArgs.some(arg => arg.includes('/S') || arg.includes('/SILENT')
|| arg.includes('/VERYSILENT'))` (cleanup.ts lines 459-461). -/
def hasSilentFlagB (existingArgs : List String) : Bool :=
  existingArgs.any (fun a => substrB "/S" a || substrB "/SILENT" a || substrB "/VERYSILENT" a)

/-- The silent-flag handling for non-MSI uninstallers (cleanup.ts lines
459-466): when `silent` and no silent flag was detected, append
`/S /SILENT /VERYSILENT`; otherwise the existing args are left unchanged
(nothing is ever stripped). -/
def applySilenceExe (existingArgs : List String) (silent : Bool) : List String :=
  if silent ∧ hasSilentFlagB existingArgs = false then
    existingArgs ++ ["/S", "/SILENT", "/VERYSILENT"]
  else
    existingArgs

/-- The MSI quiet-flag test (cleanup.ts lines 392-396): `argLower` equal to
`/qn`, `/qb` or `/qr`, or starting with `/q` with length 3. -/
def isQuietFlagB (a : String) : Bool :=
  let l := lowerStr a
  l = "/qn" || l = "/qb" || l = "/qr" || (startsWithStr "/q" l && l.data.length = 3)

/-- The quiet-flag handling for `msiexec` commands (cleanup.ts lines
392-401): append `/qn /norestart` when silent and no quiet flag is present,
append `/qb` when not silent and no quiet flag is present, otherwise leave
the parsed args unchanged. -/
def applySilenceMsi (parsedArgs : List String) (silent : Bool) : List String :=
  let hasQuiet := parsedArgs.any isQuietFlagB
  if silent ∧ hasQuiet = false then parsedArgs ++ ["/qn", "/norestart"]
  else if silent = false ∧ hasQuiet = false then parsedArgs ++ ["/qb"]
  else parsedArgs

/-- The `/x`-flag test (cleanup.ts lines 381-384): `argLower` equal to `/x`,
or starting with `/x` followed by an open brace or a double quote. -/
def isXFlagB (a : String) : Bool :=
  let l := (lowerStr a).data
  l = ['/', 'x'] || List.isPrefixOf ['/', 'x', lbrace] l ||
    List.isPrefixOf ['/', 'x', '"'] l

/-- `.msi` followed by a whitespace character somewhere in the (lowercased)
string — the regex test `/\.msi\s/i` (cleanup.ts line 352). -/
def msiWsB : List Char → Bool
  | [] => false
  | c :: rest =>
      (decide (c = '.') && decide (rest.take 3 = ['m', 's', 'i']) &&
        (match rest.drop 3 with
         | w :: _ => isWsChar w
         | [] => false)) || msiWsB rest

/-- The MSI-detection of `uninstallByName` (cleanup.ts lines 350-352):
the string mentions `msiexec`, or ends with `.msi`, or contains `.msi`
followed by whitespace. -/
def isMsiUninstall (raw : String) : Bool :=
  let lower := lowerStr raw
  substrB "msiexec" lower || endsWithStr ".msi" lower || msiWsB lower.data

/-- After the (case-insensitive) name `msiexec` and the optional `.exe`:
the regex requires one-or-more whitespace, and a non-empty remainder which
is then trimmed (`msiMatch[1].trim()`, cleanup.ts lines 362-365). When the
remainder after the maximal whitespace run is empty, the regex backtracks
and captures the final whitespace character, which trims to the empty
string. -/
def msiAfterName (after : List Char) : Option String :=
  let wsLen := (after.takeWhile isWsChar).length
  let rest := after.drop wsLen
  if wsLen = 0 then none
  else if rest ≠ [] then some (trimStr (String.mk rest))
  else if 2 ≤ wsLen then some ""
  else none

/-- Tries the regex `msiexec(?:\.exe)?\s+(.+)` (case-insensitive) at the
head of `cs`. -/
def msiTryAt (cs : List Char) : Option String :=
  if (cs.take 7).map Char.toLower = "msiexec".data then
    let after := cs.drop 7
    if (after.take 4).map Char.toLower = ".exe".data then
      msiAfterName (after.drop 4)
    else
      msiAfterName after
  else
    none

/-- Searches the regex `msiexec(?:\.exe)?\s+(.+)` (case-insensitive,
unanchored) through the string (cleanup.ts line 362). -/
def msiMatchGo : List Char → Option String
  | [] => none
  | c :: rest =>
      match msiTryAt (c :: rest) with
      | some s => some s
      | none => msiMatchGo rest

/-- The global replacement of the regex `\/([ix])(\s|$|\{)` (case-insensitive)
turning an install flag `/i` into the uninstall flag `/x` (cleanup.ts lines
368-370); a matched `/x` is left unchanged, and scanning resumes after each
match. -/
def replaceIXGo : List Char → List Char
  | [] => []
  | '/' :: c :: t :: rest =>
      if (c = 'i' ∨ c = 'I') ∧ (isWsChar t ∨ t = lbrace) then
        '/' :: 'x' :: t :: replaceIXGo rest
      else if (c = 'x' ∨ c = 'X') ∧ (isWsChar t ∨ t = lbrace) then
        '/' :: c :: t :: replaceIXGo rest
      else
        '/' :: replaceIXGo (c :: t :: rest)
  | ['/', c] =>
      if c = 'i' ∨ c = 'I' then ['/', 'x'] else ['/', c]
  | c :: rest => c :: replaceIXGo rest

/-- Reads one maximal token of the regex
`(?:[^\s"]+|"[^"]*"|\{[^}]*\})+` starting at `cs`: a concatenation of runs
of non-whitespace non-quote characters and balanced double-quoted spans.
(The braced alternative is unreachable: an open brace is itself matched by
the first alternative.) Returns the token characters and the remaining
input; `fuel` bounds the recursion and exceeds the input length at every
call site. -/
def tokReadUnits : Nat → List Char → List Char → List Char × List Char
  | 0, cs, acc => (acc, cs)
  | _ + 1, [], acc => (acc, [])
  | fuel + 1, c :: rest, acc =>
      if c = '"' then
        match rest.findIdx? (· = '"') with
        | some j => tokReadUnits fuel (rest.drop (j + 1)) (acc ++ '"' :: rest.take (j + 1))
        | none => (acc, c :: rest)
      else if isWsChar c then
        (acc, c :: rest)
      else
        tokReadUnits fuel ((c :: rest).drop
            ((c :: rest).takeWhile (fun d => !isWsChar d && d ≠ '"')).length)
          (acc ++ (c :: rest).takeWhile (fun d => !isWsChar d && d ≠ '"'))

/-- The exec-loop of the global token regex over the argument string
(cleanup.ts lines 373-378): successive matches, skipping characters at
which no token can start; each match is `.trim()`-ed and pushed. -/
def tokenizeGo : Nat → List Char → List String
  | 0, _ => []
  | _ + 1, [] => []
  | fuel + 1, c :: rest =>
      if isWsChar c then
        tokenizeGo fuel rest
      else
        match tokReadUnits ((c :: rest).length + 1) (c :: rest) [] with
        | ([], _) => tokenizeGo fuel rest
        | (tok, remaining) => trimStr (String.mk tok) :: tokenizeGo fuel remaining

/-- The argument tokenizer for parsed `msiexec` command tails. -/
def tokenizeMsi (s : String) : List String :=
  tokenizeGo (s.data.length + 1) s.data

/-- `uninstallString.trim().replace(/^["']|["']$/g, '')` (cleanup.ts line
409): strips one leading and one trailing quote or apostrophe. -/
def stripOuterQuotes (s : String) : String :=
  let cs := s.data
  let cs1 :=
    match cs with
    | c :: rest => if c = '"' ∨ c = squote then rest else cs
    | [] => []
  let cs2 :=
    match cs1.reverse with
    | c :: rest => if c = '"' ∨ c = squote then rest.reverse else cs1
    | [] => []
  String.mk cs2

/-- Whether a character-list prefix of the given length ends (case-
insensitively) in `.exe`, `.bat` or `.cmd`. -/
def endsWithExt (p : List Char) : Bool :=
  let r := (p.reverse.take 4).map Char.toLower
  r = ['e', 'x', 'e', '.'] || r = ['t', 'a', 'b', '.'] || r = ['d', 'm', 'c', '.']

/-- The greedy regex `^(.+\.(exe|bat|cmd))(?:\s+(.*))?$` (case-insensitive,
cleanup.ts line 438): the longest prefix ending in a known executable
extension whose remainder is empty or starts with whitespace; the argument
capture is the remainder after the maximal whitespace run
(`exeMatch[3] || ''`). -/
def exeSplitAux (cs : List Char) : Nat → Option (String × String)
  | 0 => none
  | k + 1 =>
      let p := cs.take (k + 1)
      let rest := cs.drop (k + 1)
      if endsWithExt p && (rest.isEmpty || isWsChar (rest.headD ' ')) then
        some (String.mk p, String.mk (rest.dropWhile isWsChar))
      else
        exeSplitAux cs k

/-- The executable/arguments split for non-MSI uninstall strings
(cleanup.ts lines 422-453): quoted prefix, else the executable-extension
regex, else the first-space fallback (`none` = the "Invalid uninstall
string format" error path). -/
def resolveExeCommand (raw : String) : Option (String × String) :=
  let cs := raw.data
  match cs with
  | '"' :: afterQuote =>
      match afterQuote.findIdx? (· = '"') with
      | none => none
      | some j =>
          some (String.mk (afterQuote.take j),
            trimStr (String.mk (afterQuote.drop (j + 1))))
  | _ =>
      match exeSplitAux cs cs.length with
      | some r => some r
      | none =>
          match cs.findIdx? (· = ' ') with
          | none => some (raw, "")
          | some sp =>
              some (String.mk (cs.take sp), trimStr (String.mk (cs.drop (sp + 1))))

/-- The full uninstall-command resolution of `uninstallByName` (cleanup.ts
lines 345-467), from the raw registry `UninstallString` and the `silent`
option to the executable and argument list (`none` = the error-return
paths for unparseable strings). -/
def resolveUninstall (uninstallString : String) (silent : Bool) :
    Option (String × List String) :=
  if isMsiUninstall uninstallString then
    if substrB "msiexec" (lowerStr uninstallString) then
      match msiMatchGo uninstallString.data with
      | none => none
      | some existingArgsStr =>
          let replaced := String.mk (replaceIXGo existingArgsStr.data)
          let parsedArgs := tokenizeMsi replaced
          let withX := if parsedArgs.any isXFlagB then parsedArgs
            else "/x" :: parsedArgs
          some ("msiexec.exe", applySilenceMsi withX silent)
    else
      let msiPath := stripOuterQuotes (trimStr uninstallString)
      some ("msiexec.exe",
        ["/x", msiPath] ++ (if silent then ["/qn", "/norestart"] else ["/qb"]))
  else
    match resolveExeCommand uninstallString with
    | none => none
    | some (exe, argsStr) =>
        let existingArgs := if argsStr = "" then [] else splitArgsOnWs argsStr
        some (exe, applySilenceExe existingArgs silent)

/-- A recognized silent/quiet marker in an argument: one of the non-MSI
silent substrings the source itself tests for, or an MSI quiet flag. -/
def recognizedSilentB (a : String) : Bool :=
  substrB "/S" a || substrB "/SILENT" a || substrB "/VERYSILENT" a || isQuietFlagB a

/- ===================================================================
   Theorems
   =================================================================== -/

/-- Appending cannot shrink a non-empty string to empty. -/
theorem len_append_pos_left (a b : String) (h : 0 < a.length) :
    0 < (a ++ b).length := by
  rw [String.length_append]
  omega

/-- Closed-form evaluation of the post-uninstall verification loop: the
branch taken is determined by the first five registry observations and the
process outcome. -/
theorem uninstallVerify_eval (present : Nat → Bool) (proc : UOutcome) :
    uninstallVerify present proc =
      if present 0 = false then ([500], ⟨true, none⟩)
      else if present 1 = false then ([500, 1000], ⟨true, none⟩)
      else if proc.success = false then ([500, 1000], proc)
      else if present 2 = false then ([500, 1000, 2000], ⟨true, none⟩)
      else if present 3 = false then ([500, 1000, 2000, 3000], ⟨true, none⟩)
      else ([500, 1000, 2000, 3000, 3000], ⟨true, none⟩) := by
  rcases h0 : present 0 <;> rcases h1 : present 1 <;> rcases h2 : present 2 <;>
    rcases h3 : present 3 <;> rcases h4 : present 4 <;> rcases hs : proc.success <;>
    simp [uninstallVerify, uvGo, uvFallback, h0, h1, h2, h3, h4, hs]

/-- The final outcome of the loop is either the constant success record or,
exactly when the process failed and the first two observations both showed
the program still present, the process result itself. -/
theorem uninstallVerify_cases (present : Nat → Bool) (proc : UOutcome) :
    (uninstallVerify present proc).2 = ⟨true, none⟩ ∨
      ((uninstallVerify present proc).2 = proc ∧ proc.success = false ∧
        present 0 = true ∧ present 1 = true) := by
  rw [uninstallVerify_eval]
  rcases h0 : present 0 <;> rcases h1 : present 1 <;> rcases h2 : present 2 <;>
    rcases h3 : present 3 <;> rcases hs : proc.success <;> simp [h0, h1, h2, h3, hs]

/-- Claim C1 counterexample: the claim describes the post-uninstall re-query
as the Verification Oracle (registry listing OR plugin scan). Take a product
whose registry entry is gone but whose plugin files remain, with a failed
process outcome: the source (which re-queries only `findUninstallString`)
returns success at the first attempt, while the claimed oracle re-query
would see the product as still present at every attempt and fall back to the
failed process outcome. -/
theorem claim_C1_counterexample :
    (uninstallVerify (fun _ => false) ⟨false, some "Process exited with code 1"⟩).2
      = ⟨true, none⟩ ∧
    (uninstallVerifyOracle (fun _ => false) true
        ⟨false, some "Process exited with code 1"⟩).2
      = ⟨false, some "Process exited with code 1"⟩ ∧
    (⟨true, none⟩ : UOutcome) ≠ ⟨false, some "Process exited with code 1"⟩ := by
  exact ⟨rfl, rfl, by decide⟩

/-- Claim C1 (amended): after an uninstall the engine re-queries only the
installed-products listing (`findUninstallString`), not the plugin scan;
absence observed at any attempt actually made confirms success regardless
of the process exit code, and if the listing still shows the product at
every attempt made, the result equals the process-reported outcome. -/
theorem claim_C1 (present : Nat → Bool) (proc : UOutcome) :
    (∀ k, k < (if proc.success then 5 else 2) →
      (∀ i, i < k → present i = true) → present k = false →
      (uninstallVerify present proc).2 = ⟨true, none⟩) ∧
    ((∀ i, i < 5 → present i = true) →
      (uninstallVerify present proc).2
        = if proc.success then ⟨true, none⟩ else proc) := by
  have he := uninstallVerify_eval present proc
  constructor
  · intro k hk hall hkf
    rcases uninstallVerify_cases present proc with hc | ⟨_, hs, h0, h1⟩
    · exact hc
    · rw [hs] at hk
      simp only [Bool.false_eq_true, if_false] at hk
      interval_cases k
      · rw [h0] at hkf; cases hkf
      · rw [h1] at hkf; cases hkf
  · intro hall
    have h0 := hall 0 (by omega)
    have h1 := hall 1 (by omega)
    have h2 := hall 2 (by omega)
    have h3 := hall 3 (by omega)
    rcases hs : proc.success
    · simp [h0, h1, hs] at he
      simp [he, hs]
    · simp [h0, h1, h2, h3, hs] at he
      simp [he, hs]

/-- Witness for claim C1 at a concrete environment: registry shows the
product present at attempts 0 and 1 and absent from attempt 2 on, with a
successful process outcome. -/
theorem claim_C1_witness :
    (uninstallVerify (fun i => decide (i < 2)) ⟨true, none⟩).2 = ⟨true, none⟩ :=
  (claim_C1 (fun i => decide (i < 2)) ⟨true, none⟩).1 2 (by decide)
    (fun i hi => by interval_cases i <;> decide) (by decide)

/-- Claim C4: the confirmation loop makes between 1 and 5 verification
attempts; the waits before the attempts are the prefix of
500ms, 1000ms, 2000ms, 3000ms, 3000ms of that length; no early-stop
condition (absence, or process failure with at least one prior attempt)
holds at any non-final attempt; and whenever fewer than 5 attempts are made,
the early-stop condition holds at the final attempt. -/
theorem claim_C4 (present : Nat → Bool) (proc : UOutcome) :
    1 ≤ (uninstallVerify present proc).1.length ∧
    (uninstallVerify present proc).1.length ≤ 5 ∧
    (uninstallVerify present proc).1
      = uvSpecDelays.take (uninstallVerify present proc).1.length ∧
    (∀ i, i < 4 → i + 1 < (uninstallVerify present proc).1.length →
      uvStop present proc.success i = false) ∧
    ((uninstallVerify present proc).1.length < 5 →
      uvStop present proc.success ((uninstallVerify present proc).1.length - 1)
        = true) := by
  have he := uninstallVerify_eval present proc
  rcases h0 : present 0 <;> rcases h1 : present 1 <;> rcases h2 : present 2 <;>
    rcases h3 : present 3 <;> rcases hs : proc.success <;>
    simp only [h0, h1, h2, h3, hs] at he <;> simp at he <;> rw [he] <;>
    refine ⟨by simp, by simp, by rfl,
      fun i hi4 hlen => by interval_cases i <;>
        first
          | (exfalso; simp at hlen; done)
          | simp [uvStop, h0, h1, h2, h3, hs],
      fun hlen => by
        first
          | (exfalso; simp at hlen; done)
          | simp [uvStop, h0, h1, h2, h3, hs]⟩

/-- Witness for claim C4 at a concrete environment: the product stays
present at every re-query and the process succeeded, so all five attempts
run with the full delay schedule. -/
theorem claim_C4_witness :
    (uninstallVerify (fun _ => true) ⟨true, none⟩).1
        = uvSpecDelays.take (uninstallVerify (fun _ => true) ⟨true, none⟩).1.length ∧
    uvStop (fun _ => true) (⟨true, none⟩ : UOutcome).success 0 = false :=
  ⟨(claim_C4 (fun _ => true) ⟨true, none⟩).2.2.1,
    (claim_C4 (fun _ => true) ⟨true, none⟩).2.2.2.1 0 (by decide) (by decide)⟩

/-- Claim C8: when the timeout is armed (`timeoutMs > 0`) and fires before
any other event, the promise resolves with `success = false`, an absent exit
code and an error message containing "timed out", and the process is killed;
the result is final — whatever events follow (in particular a late `close`),
the outcome is unchanged. -/
theorem claim_C8 (path : String) (timeoutMs : Nat) (h : 0 < timeoutMs)
    (rest : List PEvent) (code : Option Int) :
    executeProcessRun path timeoutMs (PEvent.timeout :: rest)
      = ⟨some ⟨false, none, some "Process execution timed out"⟩, true⟩ ∧
    executeProcessRun path timeoutMs (PEvent.timeout :: PEvent.close code :: rest)
      = executeProcessRun path timeoutMs (PEvent.timeout :: rest) ∧
    substrB "timed out" "Process execution timed out" = true := by
  refine ⟨?_, ?_, by decide⟩ <;> simp [executeProcessRun, h]

/-- Witness for claim C8: the default 300000ms timeout fires, then the
process closes late with exit code 0. -/
theorem claim_C8_witness :
    executeProcessRun "installer.exe" 300000 [PEvent.timeout]
      = ⟨some ⟨false, none, some "Process execution timed out"⟩, true⟩ ∧
    executeProcessRun "installer.exe" 300000
        [PEvent.timeout, PEvent.close (some 0)]
      = executeProcessRun "installer.exe" 300000 [PEvent.timeout] ∧
    substrB "timed out" "Process execution timed out" = true :=
  claim_C8 "installer.exe" 300000 (by decide) [] (some 0)

/-- Claim C10 counterexample: a spawn-level error whose `ErrnoException`
carries no recognized code and an empty `message` settles the promise with
a failure whose error field is the empty string — so not every failure
carries a non-empty error message, refuting that part of the claim. -/
theorem claim_C10_counterexample :
    executeProcessRun "installer.exe" 300000 [PEvent.procError none ""]
      = ⟨some ⟨false, none, some ""⟩, false⟩ := by
  rfl

/-- Claim C10 (amended): `executeProcess` settles only by resolving — any
close, spawn-error, or armed-timeout event produces a resolved
`ProcessResponse`; every resolved response satisfies `success = true` iff
`exitCode = 0`, success carries no error, and every failure carries an
error message; that message is non-empty for non-zero exits and for
timeouts, and for spawn errors it is either a non-empty classified message
or the spawn error's own (possibly empty) message; `exitCode` is absent on
timeout and on spawn error. -/
theorem claim_C10 :
    (∀ (path : String) (t : Nat) (events : List PEvent),
      events.any (settlingEvent t) = true →
      (executeProcessRun path t events).response.isSome = true) ∧
    (∀ (path : String) (t : Nat) (events : List PEvent) (r : ProcessResponse),
      (executeProcessRun path t events).response = some r →
      ((r.success = true ↔ r.exitCode = some 0) ∧
        (r.success = true → r.error = none) ∧
        (r.success = false → ∃ m, r.error = some m))) ∧
    (∀ code : Option Int, code ≠ some 0 →
      (closeResponse code).success = false ∧
      ∃ m, (closeResponse code).error = some m ∧ 0 < m.length) ∧
    (∀ (path : String) (t : Nat) (rest : List PEvent), 0 < t →
      (executeProcessRun path t (PEvent.timeout :: rest)).response
        = some ⟨false, none, some "Process execution timed out"⟩) ∧
    (∀ (path : String) (c : Option String) (m : String),
      (spawnErrorResponse path c m).success = false ∧
      (spawnErrorResponse path c m).exitCode = none ∧
      ∃ m2, (spawnErrorResponse path c m).error = some m2 ∧
        (m2 = m ∨ 0 < m2.length)) := by
  have hclose : ∀ code : Option Int, ((closeResponse code).success = true ↔
        (closeResponse code).exitCode = some 0) ∧
      ((closeResponse code).success = true → (closeResponse code).error = none) ∧
      ((closeResponse code).success = false →
        ∃ m, (closeResponse code).error = some m) := by
    intro code
    by_cases hc : code = some 0 <;> simp [closeResponse, hc]
  have hspawn : ∀ (path : String) (c : Option String) (m : String),
      (spawnErrorResponse path c m).success = false ∧
      (spawnErrorResponse path c m).exitCode = none ∧
      ∃ m2, (spawnErrorResponse path c m).error = some m2 ∧
        (m2 = m ∨ 0 < m2.length) := by
    intro path c m
    refine ⟨by simp [spawnErrorResponse], by simp [spawnErrorResponse], ?_⟩
    simp only [spawnErrorResponse]
    split_ifs <;> refine ⟨_, rfl, ?_⟩
    · exact Or.inr (len_append_pos_left _ _ (len_append_pos_left _ _ (by decide)))
    · exact Or.inr (len_append_pos_left _ _ (len_append_pos_left _ _ (by decide)))
    · exact Or.inr (len_append_pos_left _ _ (len_append_pos_left _ _ (by decide)))
    · exact Or.inl rfl
  refine ⟨?_, ?_, ?_, ?_, hspawn⟩
  · intro path t events hany
    induction events with
    | nil => simp at hany
    | cons e rest ih =>
        cases e with
        | timeout =>
            by_cases ht : 0 < t
            · simp [executeProcessRun, ht]
            · have hhead : settlingEvent t PEvent.timeout = false := by
                simp [settlingEvent, ht]
              rw [List.any_cons, hhead, Bool.false_or] at hany
              simpa [executeProcessRun, ht] using ih hany
        | close code => simp [executeProcessRun]
        | procError c m => simp [executeProcessRun]
  · intro path t events r hr
    induction events with
    | nil => simp [executeProcessRun] at hr
    | cons e rest ih =>
        cases e with
        | timeout =>
            by_cases ht : 0 < t
            · simp [executeProcessRun, ht] at hr
              subst hr
              simp
            · simp [executeProcessRun, ht] at hr
              exact ih hr
        | close code =>
            simp [executeProcessRun] at hr
            subst hr
            exact hclose code
        | procError c m =>
            simp [executeProcessRun] at hr
            subst hr
            refine ⟨?_, ?_, ?_⟩
            · rcases hspawn path c m with ⟨ha, hb, _⟩
              rw [ha, hb]
              simp
            · rcases hspawn path c m with ⟨ha, _, _⟩
              rw [ha]
              simp
            · intro _
              rcases hspawn path c m with ⟨_, _, m2, hm2, _⟩
              exact ⟨m2, hm2⟩
  · intro code hc
    refine ⟨by simp [closeResponse, hc],
      "Process exited with code " ++ renderExitCode code,
      by simp [closeResponse, hc], len_append_pos_left _ _ (by decide)⟩
  · intro path t rest ht
    simp [executeProcessRun, ht]

/-- Witness for claim C10 at concrete inputs: a non-zero close event and a
timeout, both settling with the stated invariants. -/
theorem claim_C10_witness :
    (executeProcessRun "setup.exe" 300000 [PEvent.close (some 1)]).response.isSome
      = true ∧
    (executeProcessRun "setup.exe" 300000 [PEvent.timeout]).response
      = some ⟨false, none, some "Process execution timed out"⟩ :=
  ⟨claim_C10.1 "setup.exe" 300000 [PEvent.close (some 1)] (by decide),
    claim_C10.2.2.2.1 "setup.exe" 300000 [] (by decide)⟩

/-- With no verification names, the automated-install loop never calls the
oracle, never returns early, and launches every installer. -/
theorem instLoop_no_names_inv (env : InstallEnv) :
    ∀ (paths : List String) (idx vc : Nat) (le : Option String),
      (instLoop env false paths idx vc le).vCalls = vc ∧
      (instLoop env false paths idx vc le).early = false ∧
      (instLoop env false paths idx vc le).launches = idx + paths.length := by
  intro paths
  induction paths with
  | nil => intro idx vc le; simp [instLoop]
  | cons p rest ih =>
      intro idx vc le
      by_cases hs : (env.run idx).success = true
      · simpa [instLoop, hs, Nat.add_assoc, Nat.add_comm 1 rest.length]
          using ih (idx + 1) vc le
      · simp only [Bool.not_eq_true] at hs
        simpa [instLoop, hs, Nat.add_assoc, Nat.add_comm 1 rest.length]
          using ih (idx + 1) vc _

/-- With no verification names and every installer succeeding, the loop
passes `lastError` through unchanged. -/
theorem instLoop_no_names_all_success (env : InstallEnv) :
    ∀ (paths : List String) (idx vc : Nat) (le : Option String),
      (∀ j, j < paths.length → (env.run (idx + j)).success = true) →
      instLoop env false paths idx vc le = ⟨le, vc, idx + paths.length, false⟩ := by
  intro paths
  induction paths with
  | nil => intro idx vc le _; simp [instLoop]
  | cons p rest ih =>
      intro idx vc le hall
      have h0 : (env.run idx).success = true := by simpa using hall 0 (by simp)
      have htail : ∀ j, j < rest.length → (env.run (idx + 1 + j)).success = true := by
        intro j hj
        have := hall (j + 1) (by simpa using Nat.succ_lt_succ hj)
        simpa [Nat.add_assoc, Nat.add_comm 1 j] using this
      simp only [instLoop, h0, if_true]
      rw [ih (idx + 1) vc le htail]
      have hlen : idx + 1 + rest.length = idx + (p :: rest).length := by
        simp only [List.length_cons]
        omega
      rw [hlen]

/-- With no verification names, once `lastError` is set it stays set. -/
theorem instLoop_no_names_some (env : InstallEnv) :
    ∀ (paths : List String) (idx vc : Nat) (m : String),
      ∃ e, (instLoop env false paths idx vc (some m)).lastError = some e := by
  intro paths
  induction paths with
  | nil => intro idx vc m; exact ⟨m, by simp [instLoop]⟩
  | cons p rest ih =>
      intro idx vc m
      by_cases hs : (env.run idx).success = true
      · simpa [instLoop, hs] using ih (idx + 1) vc m
      · simp only [Bool.not_eq_true] at hs
        simpa [instLoop, hs] using ih (idx + 1) vc _

/-- With no verification names, a failing installer anywhere in the list
leaves a recorded `lastError`. -/
theorem instLoop_no_names_failure (env : InstallEnv) :
    ∀ (paths : List String) (idx vc : Nat) (le : Option String),
      (∃ j, j < paths.length ∧ (env.run (idx + j)).success = false) →
      ∃ e, (instLoop env false paths idx vc le).lastError = some e := by
  intro paths
  induction paths with
  | nil => intro idx vc le h; rcases h with ⟨j, hj, _⟩; simp at hj
  | cons p rest ih =>
      intro idx vc le h
      by_cases hs : (env.run idx).success = true
      · rcases h with ⟨j, hj, hf⟩
        have hj0 : j ≠ 0 := by
          intro h0
          rw [h0, Nat.add_zero] at hf
          rw [hs] at hf
          cases hf
        rcases Nat.exists_eq_succ_of_ne_zero hj0 with ⟨j2, rfl⟩
        have : ∃ j, j < rest.length ∧ (env.run (idx + 1 + j)).success = false :=
          ⟨j2, by simpa using hj, by simpa [Nat.add_assoc, Nat.add_comm 1 j2] using hf⟩
        simpa [instLoop, hs] using ih (idx + 1) vc le this
      · simp only [Bool.not_eq_true] at hs
        simpa [instLoop, hs] using instLoop_no_names_some env rest (idx + 1) vc _

/-- Claim C2: with a non-empty `installedAppNames` list, a positive
pre-flight verification returns a success-equivalent result
(`installSuccess = true`, no error), the only status emitted is `skipped`,
and no installer is launched (the batch layer has already emitted `pending`,
so `skipped` is reached directly from `pending`). -/
theorem claim_C2 (item : InstallItem) (env : InstallEnv)
    (hn : item.installedAppNames ≠ []) (hv : env.verify 0 = true) :
    installSingleModel item env
      = ⟨⟨item.name, item.paths, true, none⟩, [InstStatus.skipped], 0, 1⟩ := by
  simp [installSingleModel, hn, hv]

/-- Witness for claim C2 at a concrete already-installed item. -/
theorem claim_C2_witness :
    installSingleModel ⟨"FL Studio", ["fl.exe"], ["FL Studio"], false⟩
        ⟨fun _ => true, fun _ => ⟨true, some 0, none⟩⟩
      = ⟨⟨"FL Studio", ["fl.exe"], true, none⟩, [InstStatus.skipped], 0, 1⟩ :=
  claim_C2 ⟨"FL Studio", ["fl.exe"], ["FL Studio"], false⟩
    ⟨fun _ => true, fun _ => ⟨true, some 0, none⟩⟩ (by decide) rfl

/-- Claim C3: for an automated install task with no verification names, the
oracle is never called, every installer is launched, and the final result
and status are determined solely by the process exit codes — all zero gives
`completed` with `installSuccess = true`, any other outcome gives `failed`.
The hypothesis `hwf` is the `executeProcess` invariant
`success = (exitCode == 0)` proved in claim C10. -/
theorem claim_C3 (item : InstallItem) (env : InstallEnv)
    (hn : item.installedAppNames = [])
    (hm : item.requiresManualInstallation = false)
    (hwf : ∀ i, (env.run i).success = decide ((env.run i).exitCode = some 0)) :
    (installSingleModel item env).verifyCalls = 0 ∧
    (installSingleModel item env).launches = item.paths.length ∧
    ((installSingleModel item env).result.installSuccess = true ↔
      ∀ j, j < item.paths.length → (env.run j).exitCode = some 0) ∧
    (installSingleModel item env).statuses =
      (if ∀ j, j < item.paths.length → (env.run j).exitCode = some 0
        then [InstStatus.completed] else [InstStatus.failed]) := by
  have hiff : (∀ j, j < item.paths.length → (env.run j).success = true) ↔
      (∀ j, j < item.paths.length → (env.run j).exitCode = some 0) := by
    constructor
    · intro h j hj
      have := h j hj
      rw [hwf j] at this
      exact of_decide_eq_true this
    · intro h j hj
      rw [hwf j]
      exact decide_eq_true (h j hj)
  by_cases hall : ∀ j, j < item.paths.length → (env.run j).success = true
  · have hloop := instLoop_no_names_all_success env item.paths 0 0 none
      (by simpa using hall)
    have hcond : ∀ j, j < item.paths.length → (env.run j).exitCode = some 0 :=
      hiff.mp hall
    simp [installSingleModel, hn, hm, hloop]
    exact ⟨hcond, by rw [if_pos hcond]⟩
  · have hfail : ∃ j, j < item.paths.length ∧ (env.run j).success = false := by
      push_neg at hall
      rcases hall with ⟨j, hj, hf⟩
      exact ⟨j, hj, by simpa using hf⟩
    obtain ⟨e, he⟩ := instLoop_no_names_failure env item.paths 0 0 none
      (by simpa using hfail)
    have hinv := instLoop_no_names_inv env item.paths 0 0 none
    have hcond : ¬ ∀ j, j < item.paths.length → (env.run j).exitCode = some 0 := by
      intro h
      rcases hfail with ⟨j, hj, hf⟩
      have := hiff.mpr h j hj
      rw [this] at hf
      cases hf
    simp [installSingleModel, hn, hm, he, hinv.1, hinv.2.1, hinv.2.2, hcond]

/-- Witness for claim C3: a one-installer task whose process exits 0. -/
theorem claim_C3_witness :
    (installSingleModel ⟨"Plugin", ["setup.exe"], [], false⟩
        ⟨fun _ => false, fun _ => ⟨true, some 0, none⟩⟩).verifyCalls = 0 ∧
    (installSingleModel ⟨"Plugin", ["setup.exe"], [], false⟩
        ⟨fun _ => false, fun _ => ⟨true, some 0, none⟩⟩).launches = 1 :=
  ⟨(claim_C3 ⟨"Plugin", ["setup.exe"], [], false⟩
      ⟨fun _ => false, fun _ => ⟨true, some 0, none⟩⟩ rfl rfl (fun _ => rfl)).1,
    (claim_C3 ⟨"Plugin", ["setup.exe"], [], false⟩
      ⟨fun _ => false, fun _ => ⟨true, some 0, none⟩⟩ rfl rfl (fun _ => rfl)).2.1⟩

/-- Applying silence to a non-MSI argument list always leaves or inserts a
recognized silent marker. -/
theorem applySilenceExe_true (ex : List String) :
    ∃ a ∈ applySilenceExe ex true, recognizedSilentB a = true := by
  by_cases h : hasSilentFlagB ex = true
  · rcases List.any_eq_true.mp h with ⟨a, ha, hf⟩
    refine ⟨a, ?_, ?_⟩
    · simp [applySilenceExe, h, ha]
    · simp [recognizedSilentB, hf]
  · simp only [Bool.not_eq_true] at h
    refine ⟨"/S", ?_, by decide⟩
    simp [applySilenceExe, h]

/-- Applying silence to an MSI argument list always leaves or inserts a
recognized quiet flag. -/
theorem applySilenceMsi_true (p : List String) :
    ∃ a ∈ applySilenceMsi p true, recognizedSilentB a = true := by
  by_cases h : p.any isQuietFlagB = true
  · rcases List.any_eq_true.mp h with ⟨a, ha, hf⟩
    refine ⟨a, ?_, ?_⟩
    · simp [applySilenceMsi, h, ha]
    · simp [recognizedSilentB, hf]
  · simp only [Bool.not_eq_true] at h
    refine ⟨"/qn", ?_, by decide⟩
    simp [applySilenceMsi, h]

/-- Claim C5 counterexample: the raw uninstall command
`C:\Apps\un.exe /S` resolved with `silent = false` still carries the
recognized silent flag `/S` — pre-existing silent flags are not stripped,
refuting the `silent = false` half of the claim. -/
theorem claim_C5_counterexample :
    resolveUninstall "C:\\Apps\\un.exe /S" false
      = some ("C:\\Apps\\un.exe", ["/S"]) ∧
    recognizedSilentB "/S" = true := by
  exact ⟨by rfl, by rfl⟩

/-- Claim C5 (amended): resolving any raw uninstall command with
`silent = true` yields an argument list containing at least one recognized
silent/quiet flag; with `silent = false` no flag is injected but nothing is
stripped either — non-MSI argument lists are returned unchanged, and MSI
argument lists get the basic-UI flag `/qb` appended exactly when no quiet
flag is already present. -/
theorem claim_C5 :
    (∀ raw exe args, resolveUninstall raw true = some (exe, args) →
      ∃ a ∈ args, recognizedSilentB a = true) ∧
    (∀ ex, applySilenceExe ex false = ex) ∧
    (∀ p, applySilenceMsi p false =
      if p.any isQuietFlagB then p else p ++ ["/qb"]) := by
  refine ⟨?_, ?_, ?_⟩
  · intro raw exe args h
    by_cases hmsi : isMsiUninstall raw = true
    · by_cases hex : substrB "msiexec" (lowerStr raw) = true
      · rcases hmm : msiMatchGo raw.data with _ | s
        · simp [resolveUninstall, hmsi, hex, hmm] at h
        · simp only [resolveUninstall, hmsi, hex, hmm, if_true] at h
          simp only [Option.some.injEq, Prod.mk.injEq] at h
          obtain ⟨_, ha⟩ := h
          rw [← ha]
          exact applySilenceMsi_true _
      · simp only [Bool.not_eq_true] at hex
        simp only [resolveUninstall, hmsi, hex, if_true, Bool.false_eq_true,
          if_false] at h
        simp only [Option.some.injEq, Prod.mk.injEq] at h
        obtain ⟨_, ha⟩ := h
        refine ⟨"/qn", ?_, by decide⟩
        rw [← ha]
        simp
    · simp only [Bool.not_eq_true] at hmsi
      rcases hrc : resolveExeCommand raw with _ | ⟨exe2, argsStr⟩
      · simp [resolveUninstall, hmsi, hrc] at h
      · simp only [resolveUninstall, hmsi, hrc, Bool.false_eq_true, if_false] at h
        simp only [Option.some.injEq, Prod.mk.injEq] at h
        obtain ⟨_, ha⟩ := h
        rw [← ha]
        exact applySilenceExe_true _
  · intro ex
    simp [applySilenceExe]
  · intro p
    by_cases h : p.any isQuietFlagB = true
    · simp [applySilenceMsi, h]
    · simp only [Bool.not_eq_true] at h
      simp [applySilenceMsi, h]

/-- Witness for claim C5: a plain executable command resolved silently, the
unchanged `silent = false` executable case, and the MSI `/qb` case. -/
theorem claim_C5_witness :
    (∃ a ∈ ["/S", "/SILENT", "/VERYSILENT"], recognizedSilentB a = true) ∧
    applySilenceExe ["/S"] false = ["/S"] ∧
    applySilenceMsi ["/x"] false
      = (if ["/x"].any isQuietFlagB then ["/x"] else ["/x"] ++ ["/qb"]) :=
  ⟨claim_C5.1 "C:\\Apps\\un.exe" "C:\\Apps\\un.exe"
      ["/S", "/SILENT", "/VERYSILENT"] (by rfl),
    claim_C5.2.1 ["/S"], claim_C5.2.2 ["/x"]⟩

/-- Writing settled outcomes into their slots preserves the array length. -/
theorem foldl_set_length {α : Type} (vals : Nat → α) (order : List Nat) :
    ∀ acc : List (Option α),
      (order.foldl (fun a i => a.set i (some (vals i))) acc).length
        = acc.length := by
  induction order with
  | nil => intro acc; rfl
  | cons i rest ih => intro acc; rw [List.foldl_cons, ih, List.length_set]

/-- After the writes, slot `j` holds task j's value iff `j` completed,
independently of where in the completion order it did. -/
theorem foldl_set_getElem? {α : Type} (vals : Nat → α) (order : List Nat) :
    ∀ (acc : List (Option α)) (j : Nat), j < acc.length →
      (order.foldl (fun a i => a.set i (some (vals i))) acc)[j]?
        = if j ∈ order then some (some (vals j)) else acc[j]? := by
  induction order with
  | nil => intro acc j hj; simp
  | cons i rest ih =>
      intro acc j hj
      rw [List.foldl_cons, ih (acc.set i (some (vals i))) j (by simpa)]
      by_cases hjr : j ∈ rest
      · simp [hjr]
      · by_cases hji : j = i
        · subst hji
          rw [List.getElem?_set_eq_of_lt _ hj]
          simp [hjr]
        · rw [List.getElem?_set_ne (Ne.symm hji)]
          simp [hjr, hji]

/-- When the completion order is a permutation of the task indices, the
filled slot array is the values in input-index order. -/
theorem fillSlots_perm {α : Type} (n : Nat) (vals : Nat → α) (order : List Nat)
    (h : order.Perm (List.range n)) :
    fillSlots n vals order = (List.range n).map (fun i => some (vals i)) := by
  apply List.ext_get?_iff.mpr
  intro j
  rw [List.get?_eq_getElem?, List.get?_eq_getElem?]
  by_cases hj : j < n
  · rw [fillSlots, foldl_set_getElem? vals order _ j (by simpa)]
    have hmem : j ∈ order := h.mem_iff.mpr (List.mem_range.mpr hj)
    simp [hmem, hj]
  · have h1 : (fillSlots n vals order).length ≤ j := by
      rw [fillSlots, foldl_set_length]
      simpa using Nat.le_of_not_lt hj
    have h2 : ((List.range n).map (fun i => some (vals i))).length ≤ j := by
      simpa using Nat.le_of_not_lt hj
    rw [List.getElem?_eq_none h1, List.getElem?_eq_none h2]

/-- Reading an element of a mapped range. -/
theorem map_range_getD {α : Type} (n : Nat) (f : Nat → α) (i : Nat)
    (hi : i < n) (d : α) : ((List.range n).map f).getD i d = f i := by
  rw [List.getD_eq_getElem?_getD]
  simp [hi]

/-- Under any permutation completion order, the concurrent install batch
gathers, in input order, exactly the per-task settled outcomes. -/
theorem installConcurrentlyModel_eq (items : List InstallItem)
    (outcomes : Nat → Except String InstallResult) (order : List Nat)
    (h : order.Perm (List.range items.length)) :
    installConcurrentlyModel items outcomes order
      = (List.range items.length).map
          (fun i => settleInstall items i (outcomes i)) := by
  rw [installConcurrentlyModel, fillSlots_perm _ _ _ h, List.map_map]
  simp [Function.comp]

/-- Under any permutation completion order, the concurrent uninstall batch
gathers, in input order, exactly the per-task settled outcomes. -/
theorem uninstallConcurrentlyModel_eq (programNames : List String)
    (rand : Nat → Nat) (outcomes : Nat → Except String UninstallResult)
    (order : List Nat) (h : order.Perm (List.range programNames.length)) :
    (uninstallConcurrentlyModel programNames rand outcomes order).2
      = (List.range programNames.length).map
          (fun i => settleUninstall programNames i (outcomes i)) := by
  rw [uninstallConcurrentlyModel]
  simp only
  rw [fillSlots_perm _ _ _ h, List.map_map]
  simp [Function.comp]

/-- Claim C6: for every concurrent batch — install or uninstall — and every
completion order that is a permutation of the task indices, the result list
has exactly the length of the input task list and its i-th entry carries the
i-th task's name. The two hypotheses record what the source guarantees:
each fulfilled promise carries its own task's name (`installSingle` /
`uninstallSingle` echo the name into the result), and task names are
non-empty (the rejected-branch fallback `name || 'unknown'` would rename an
empty-named task). -/
theorem claim_C6 :
    (∀ (items : List InstallItem) (outcomes : Nat → Except String InstallResult)
        (order : List Nat),
      order.Perm (List.range items.length) →
      (∀ i r, outcomes i = Except.ok r → r.name = (items.getD i defaultItem).name) →
      (∀ i, i < items.length → (items.getD i defaultItem).name ≠ "") →
      ((installConcurrentlyModel items outcomes order).length = items.length ∧
        ∀ i, i < items.length →
          ((installConcurrentlyModel items outcomes order).getD i defaultIR).name
            = (items.getD i defaultItem).name)) ∧
    (∀ (programNames : List String) (rand : Nat → Nat)
        (outcomes : Nat → Except String UninstallResult) (order : List Nat),
      order.Perm (List.range programNames.length) →
      (∀ i r, outcomes i = Except.ok r → r.name = programNames.getD i "") →
      (∀ i, i < programNames.length → programNames.getD i "" ≠ "") →
      ((uninstallConcurrentlyModel programNames rand outcomes order).2.length
          = programNames.length ∧
        ∀ i, i < programNames.length →
          (((uninstallConcurrentlyModel programNames rand outcomes order).2).getD
              i defaultUR).name = programNames.getD i "")) := by
  constructor
  · intro items outcomes order hperm hok hne
    rw [installConcurrentlyModel_eq items outcomes order hperm]
    refine ⟨by simp, ?_⟩
    intro i hi
    rw [map_range_getD _ _ i hi]
    rcases ho : outcomes i with e | r
    · have hne2 := hne i hi
      rw [List.getD_eq_getElem?_getD] at hne2
      simp [settleInstall, jsStrOr, hne2]
    · simp only [settleInstall]
      exact hok i r ho
  · intro programNames rand outcomes order hperm hok hne
    rw [uninstallConcurrentlyModel_eq programNames rand outcomes order hperm]
    refine ⟨by simp, ?_⟩
    intro i hi
    rw [map_range_getD _ _ i hi]
    rcases ho : outcomes i with e | r
    · have hne2 := hne i hi
      rw [List.getD_eq_getElem?_getD] at hne2
      simp [settleUninstall, jsStrOr, hne2]
    · simp only [settleUninstall]
      exact hok i r ho

/-- Witness for claim C6: a two-task uninstall batch completing in reversed
order still reports the input names in input order. -/
theorem claim_C6_witness :
    (uninstallConcurrentlyModel ["Serum", "Kontakt"] (fun _ => 0)
        (fun i => Except.ok ⟨["Serum", "Kontakt"].getD i "", true, none⟩)
        [1, 0]).2.length = 2 ∧
    ((uninstallConcurrentlyModel ["Serum", "Kontakt"] (fun _ => 0)
        (fun i => Except.ok ⟨["Serum", "Kontakt"].getD i "", true, none⟩)
        [1, 0]).2.getD 0 defaultUR).name = ["Serum", "Kontakt"].getD 0 "" :=
  ⟨(claim_C6.2 ["Serum", "Kontakt"] (fun _ => 0)
      (fun i => Except.ok ⟨["Serum", "Kontakt"].getD i "", true, none⟩) [1, 0]
      (by decide) (fun i r h => by cases h; rfl)
      (by intro i hi; simp only [List.length_cons, List.length_nil] at hi; interval_cases i <;> decide)).1,
    (claim_C6.2 ["Serum", "Kontakt"] (fun _ => 0)
      (fun i => Except.ok ⟨["Serum", "Kontakt"].getD i "", true, none⟩) [1, 0]
      (by decide) (fun i r h => by cases h; rfl)
      (by intro i hi; simp only [List.length_cons, List.length_nil] at hi; interval_cases i <;> decide)).2 0 (by decide)⟩

/-- Claim C7: exceptions and rejections are confined to their own task.
`uninstallSingle` converts a thrown exception into a failed result for that
task; a concurrent batch (any permutation completion order) gathers each
task's own settled outcome, so one task's rejection cannot change another's
entry; a rejected task's entry is a failed result with an error string; and
a sequential batch returns one result per task, each its own task's
outcome. -/
theorem claim_C7 :
    (∀ nm e, uninstallSingleModel nm (Except.error e) = ⟨nm, false, some e⟩) ∧
    (∀ (items : List InstallItem) (outcomes : Nat → Except String InstallResult)
        (order : List Nat), order.Perm (List.range items.length) →
      ((installConcurrentlyModel items outcomes order).length = items.length ∧
        ∀ j, j < items.length →
          (installConcurrentlyModel items outcomes order).getD j defaultIR
            = settleInstall items j (outcomes j))) ∧
    (∀ items j e, (settleInstall items j (Except.error e)).installSuccess = false ∧
      (settleInstall items j (Except.error e)).error ≠ none) ∧
    (∀ (programNames : List String) (inners : Nat → Except String UOutcome),
      (uninstallSequentiallyModel programNames inners).length
          = programNames.length ∧
      ∀ j, j < programNames.length →
        (uninstallSequentiallyModel programNames inners).getD j defaultUR
          = uninstallSingleModel (programNames.getD j "") (inners j)) := by
  refine ⟨fun nm e => rfl, ?_, ?_, ?_⟩
  · intro items outcomes order hperm
    rw [installConcurrentlyModel_eq items outcomes order hperm]
    refine ⟨by simp, ?_⟩
    intro j hj
    rw [map_range_getD _ _ j hj]
  · intro items j e
    simp [settleInstall]
  · intro programNames inners
    refine ⟨by simp [uninstallSequentiallyModel], ?_⟩
    intro j hj
    rw [uninstallSequentiallyModel, map_range_getD _ _ j hj]

/-- Witness for claim C7: a three-task concurrent batch whose middle task's
promise is rejected still yields three entries, the middle one failed. -/
theorem claim_C7_witness :
    (installConcurrentlyModel
        [⟨"A", ["a.exe"], [], false⟩, ⟨"B", ["b.exe"], [], false⟩,
          ⟨"C", ["c.exe"], [], false⟩]
        (fun i => if i = 1 then Except.error "boom"
          else Except.ok ⟨"ok", [], true, none⟩) [2, 0, 1]).length = 3 ∧
    (settleInstall [⟨"B", ["b.exe"], [], false⟩] 1
        (Except.error "boom")).installSuccess = false :=
  ⟨(claim_C7.2.1
      [⟨"A", ["a.exe"], [], false⟩, ⟨"B", ["b.exe"], [], false⟩,
        ⟨"C", ["c.exe"], [], false⟩]
      (fun i => if i = 1 then Except.error "boom"
        else Except.ok ⟨"ok", [], true, none⟩) [2, 0, 1] (by decide)).1,
    (claim_C7.2.2.1 [⟨"B", ["b.exe"], [], false⟩] 1 "boom").1⟩

/-- Claim C9 counterexample: `installConcurrently` starts every task
immediately — the start delay of task 1 is 0, which no jitter sample
`r + 1 * 50` can produce, refuting the claim for install batches. -/
theorem claim_C9_counterexample :
    installStartDelay 1 = 0 ∧
    ¬ ∃ r : Nat, installStartDelay 1 = r + 1 * 50 := by
  refine ⟨rfl, ?_⟩
  rintro ⟨r, hr⟩
  simp [installStartDelay] at hr

/-- Claim C9 (amended): only the concurrent uninstall batch staggers its
tasks — task i starts after `rand i + i * 50` ms, which lies in
`[i*50, i*50 + 200)` when the sample is in `[0, 200)`; the concurrent
install batch starts every task with zero delay. -/
theorem claim_C9 (programNames : List String) (rand : Nat → Nat)
    (outcomes : Nat → Except String UninstallResult) (order : List Nat)
    (hb : ∀ i, rand i < 200) :
    (∀ i, i < programNames.length →
      ((uninstallConcurrentlyModel programNames rand outcomes order).1).getD i 0
        = rand i + i * 50) ∧
    (∀ i, i < programNames.length →
      i * 50 ≤
          ((uninstallConcurrentlyModel programNames rand outcomes order).1).getD
            i 0 ∧
        ((uninstallConcurrentlyModel programNames rand outcomes order).1).getD
            i 0 < i * 50 + 200) ∧
    (∀ i, installStartDelay i = 0) := by
  have hsched : ∀ i, i < programNames.length →
      ((uninstallConcurrentlyModel programNames rand outcomes order).1).getD i 0
        = rand i + i * 50 := by
    intro i hi
    rw [uninstallConcurrentlyModel]
    simp only
    rw [map_range_getD _ _ i hi]
    rfl
  refine ⟨hsched, ?_, fun i => rfl⟩
  intro i hi
  rw [hsched i hi]
  have := hb i
  omega

/-- Witness for claim C9: a two-task uninstall batch with jitter sample 7
for every task. -/
theorem claim_C9_witness :
    ((uninstallConcurrentlyModel ["A", "B"] (fun _ => 7)
        (fun _ => Except.error "x") [0, 1]).1).getD 1 0 = 7 + 1 * 50 :=
  (claim_C9 ["A", "B"] (fun _ => 7) (fun _ => Except.error "x") [0, 1]
      (fun _ => by norm_num)).1 1 (by decide)

end MusicProd
